import Mathlib

/-!
Verification of the Geocoin Carrier core (src/main.ts, final revision).

Shallow embedding conventions:
* JavaScript numbers are modelled as exact rationals (`ℚ`); all coordinate
  arithmetic in the source stays within small decimal fractions, and no claim
  hinges on IEEE-754 rounding.
* Strings are Lean `String`s; the memento payload produced by
  `JSON.stringify` on a `Cache` object is modelled character-for-character
  (key order follows the object-literal insertion order of the source).
* `Math.random()` is modelled as an explicit stream `rng : ℕ → ℚ` of draws in
  `[0, 1)` together with a cursor `rngIdx`; each call to `Math.random()`
  consumes the next element of the stream.
* `alert(...)` calls are collected into a list of presentation-surface
  messages returned next to the new state.
* `localStorage` under the single save key is modelled as an
  `Option Json` field `store` of the game state; `JSON.stringify`/`JSON.parse`
  at the save-blob level are modelled as the identity bijection between JSON
  text and JSON values, so the blob is kept as a structured `Json` value.
-/

namespace Geocoin

/-- `interface Coordinates { lat, lng }`. -/
structure Coordinates where
  lat : ℚ
  lng : ℚ
deriving DecidableEq, Repr

/-- `interface GridCoordinates { i, j }`. -/
structure GridCoordinates where
  i : ℤ
  j : ℤ
deriving DecidableEq, Repr

/-- `interface Coin { id, cacheLocation }`. -/
structure Coin where
  id : String
  cacheLocation : GridCoordinates
deriving DecidableEq, Repr

/-- `interface Cache { id, location, coins }`. -/
structure Cache where
  id : String
  location : GridCoordinates
  coins : List Coin
deriving DecidableEq, Repr

/-! ## Integer rendering (JS template-literal / JSON number output) -/

/-- Decimal digit characters of a natural number, most significant first
(structural fuel recursion; `fuel > n` always suffices). -/
def natDigitsAux : ℕ → ℕ → List Char
  | 0, _ => []
  | fuel + 1, n =>
    if n < 10 then [Nat.digitChar n]
    else natDigitsAux fuel (n / 10) ++ [Nat.digitChar (n % 10)]

/-- Decimal digits of `n`; models how a nonnegative integer-valued JS number
prints. -/
def natDigits (n : ℕ) : List Char := natDigitsAux (n + 1) n

/-- Decimal rendering of an integer-valued JS number (`${n}` and JSON output). -/
def serInt (n : ℤ) : List Char :=
  if n < 0 then '-' :: natDigits n.natAbs else natDigits n.natAbs

/-- The canonical cell key `` `${i}:${j}` ``. -/
def cellKey (i j : ℤ) : String :=
  String.mk (serInt i ++ ':' :: serInt j)

/-- Generated coin id `` `${i}:${j}#${serial}` ``. -/
def coinId (i j : ℤ) (serial : ℕ) : String :=
  String.mk (serInt i ++ ':' :: serInt j ++ '#' :: serInt serial)

/-! ## Memento serialization (`JSON.stringify` on a `Cache`)

`cacheMomento` stores `JSON.stringify(cache)` and restores with
`JSON.parse(momento) as Cache`.  The object-literal key orders in the source
are `{ id, location, coins }` for caches, `{ i, j }` for grid coordinates and
`{ id, cacheLocation }` for coins, which `JSON.stringify` preserves.  String
escaping covers `"` and `\` (reachable ids contain neither escapes nor
control characters). -/

/-- JSON string-body escaping for quote and backslash. -/
def escChars : List Char → List Char
  | [] => []
  | c :: cs => if c = '"' ∨ c = '\\' then '\\' :: c :: escChars cs else c :: escChars cs

/-- A JSON string literal: `"…"` with escaping. -/
def serStr (s : String) : List Char :=
  '"' :: escChars s.data ++ ['"']

/-- `JSON.stringify({i, j})`. -/
def serGrid (g : GridCoordinates) : List Char :=
  "\x7b\"i\":".data ++ serInt g.i ++ ",\"j\":".data ++ serInt g.j ++ "\x7d".data

/-- `JSON.stringify({id, cacheLocation})` for a coin. -/
def serCoin (co : Coin) : List Char :=
  "\x7b\"id\":".data ++ serStr co.id ++ ",\"cacheLocation\":".data
    ++ serGrid co.cacheLocation ++ "\x7d".data

/-- Comma-separated coin array elements. -/
def serCoinsInner : List Coin → List Char
  | [] => []
  | [co] => serCoin co
  | co :: rest => serCoin co ++ ',' :: serCoinsInner rest

/-- `JSON.stringify` of the coin array. -/
def serCoins (l : List Coin) : List Char :=
  '[' :: serCoinsInner l ++ [']']

/-- `JSON.stringify` of a full `Cache` value. -/
def serCache (c : Cache) : List Char :=
  "\x7b\"id\":".data ++ serStr c.id ++ ",\"location\":".data ++ serGrid c.location
    ++ ",\"coins\":".data ++ serCoins c.coins ++ "\x7d".data

/-- `cacheMomento.toMomento`: the serialized cache state. -/
def toMomento (c : Cache) : String :=
  String.mk (serCache c)

/-! ## Memento parsing (`JSON.parse` restricted to the stringify image) -/

/-- Consume an expected literal prefix. -/
def eatLit : List Char → List Char → Option (List Char)
  | [], s => some s
  | _ :: _, [] => none
  | p :: ps, c :: cs => if c = p then eatLit ps cs else none

/-- Parse the body of a string literal after the opening quote, undoing
escapes, up to the closing quote. -/
def parseStrBody : List Char → Option (List Char × List Char)
  | [] => none
  | c :: cs =>
    if c = '"' then some ([], cs)
    else if c = '\\' then
      match cs with
      | [] => none
      | d :: ds => (parseStrBody ds).map fun p => (d :: p.1, p.2)
    else (parseStrBody cs).map fun p => (c :: p.1, p.2)

/-- Parse a string literal including the opening quote. -/
def parseStr (s : List Char) : Option (String × List Char) := do
  let s ← eatLit ['"'] s
  let (body, rest) ← parseStrBody s
  pure (String.mk body, rest)

/-- Numeric value of a decimal digit character. -/
def digitVal (c : Char) : ℕ := c.toNat - '0'.toNat

/-- Accumulate leading decimal digits. -/
def parseNatAux (acc : ℕ) : List Char → ℕ × List Char
  | [] => (acc, [])
  | c :: cs => if c.isDigit then parseNatAux (10 * acc + digitVal c) cs else (acc, c :: cs)

/-- Parse an (optionally negated) decimal integer. -/
def parseIntL : List Char → Option (ℤ × List Char)
  | [] => none
  | c :: cs =>
    if c = '-' then
      match cs with
      | [] => none
      | c' :: cs' =>
        if c'.isDigit then
          let (n, r) := parseNatAux 0 (c' :: cs')
          some (-(n : ℤ), r)
        else none
    else if c.isDigit then
      let (n, r) := parseNatAux 0 (c :: cs)
      some ((n : ℤ), r)
    else none

/-- Parse `{"i":…,"j":…}`. -/
def parseGrid (s : List Char) : Option (GridCoordinates × List Char) := do
  let s ← eatLit "\x7b\"i\":".data s
  let (i, s) ← parseIntL s
  let s ← eatLit ",\"j\":".data s
  let (j, s) ← parseIntL s
  let s ← eatLit "\x7d".data s
  pure (⟨i, j⟩, s)

/-- Parse `{"id":…,"cacheLocation":…}`. -/
def parseCoin (s : List Char) : Option (Coin × List Char) := do
  let s ← eatLit "\x7b\"id\":".data s
  let (id, s) ← parseStr s
  let s ← eatLit ",\"cacheLocation\":".data s
  let (g, s) ← parseGrid s
  let s ← eatLit "\x7d".data s
  pure (⟨id, g⟩, s)

/-- Parse the nonempty tail of a coin array (fuel bounds the element count). -/
def parseCoinsAux : ℕ → List Char → Option (List Coin × List Char)
  | 0, _ => none
  | fuel + 1, s => do
    let (co, r) ← parseCoin s
    match r with
    | ',' :: r' => (parseCoinsAux fuel r').map fun p => (co :: p.1, p.2)
    | ']' :: r' => some ([co], r')
    | _ => none

/-- Parse a coin array `[…]`. -/
def parseCoins : List Char → Option (List Coin × List Char)
  | [] => none
  | c :: r =>
    if c = '[' then
      match r with
      | c2 :: r2 => if c2 = ']' then some ([], r2) else parseCoinsAux (r.length + 1) r
      | [] => parseCoinsAux (r.length + 1) r
    else none

/-- Parse the full serialized cache. -/
def parseCacheL (s : List Char) : Option (Cache × List Char) := do
  let s ← eatLit "\x7b\"id\":".data s
  let (id, s) ← parseStr s
  let s ← eatLit ",\"location\":".data s
  let (g, s) ← parseGrid s
  let s ← eatLit ",\"coins\":".data s
  let (coins, s) ← parseCoins s
  let s ← eatLit "\x7d".data s
  pure (⟨id, g, coins⟩, s)

/-- `cacheMomento.fromMomento`: `JSON.parse(momento) as Cache`.  `JSON.parse`
requires the whole string to be consumed; an unparseable momento throws in
the source and yields `none` here (reachable momentos always parse, see
`fromMomento_toMomento`). -/
def fromMomento (s : String) : Option Cache :=
  match parseCacheL s.data with
  | some (c, []) => some c
  | _ => none

/-! ## The save blob (`JSON.parse` result of the `localStorage` payload)

`saveGame` writes `JSON.stringify(gameState)` and `loadGame` immediately
applies `JSON.parse`; since text rendering and parsing of a JSON document are
mutually inverse, the blob is modelled directly as a JSON value. -/

/-- JSON values, as produced by `JSON.parse` of the save blob. -/
inductive Json where
  | jnull : Json
  | jbool : Bool → Json
  | jnum : ℚ → Json
  | jstr : String → Json
  | jarr : List Json → Json
  | jobj : List (String × Json) → Json

/-- JS property access `x.f` on a parsed value: `none` models `undefined`. -/
def jget (v : Json) (f : String) : Option Json :=
  match v with
  | .jobj fields => (fields.find? fun p => p.1 = f).map Prod.snd
  | _ => none

/-- JS truthiness of a possibly-`undefined` value. -/
def truthy : Option Json → Bool
  | none => false
  | some .jnull => false
  | some (.jbool b) => b
  | some (.jnum q) => q != 0
  | some (.jstr s) => s != ""
  | some (.jarr _) => true
  | some (.jobj _) => true

/-- `typeof x === "number"` on a possibly-`undefined` value. -/
def isNum : Option Json → Bool
  | some (.jnum _) => true
  | _ => false

/-- `typeof x === "string"` on a possibly-`undefined` value. -/
def isStr : Option Json → Bool
  | some (.jstr _) => true
  | _ => false

deriving instance DecidableEq for Except

/-! ## JS `Map` semantics over insertion-ordered association lists -/

/-- `Map.prototype.set`: replace in place if the key exists, else append. -/
def mapSet (m : List (String × String)) (k v : String) : List (String × String) :=
  match m with
  | [] => [(k, v)]
  | (k', v') :: rest => if k' = k then (k, v) :: rest else (k', v') :: mapSet rest k v

/-- `Map.prototype.get` (`none` models `undefined`). -/
def mapGet (m : List (String × String)) (k : String) : Option String :=
  (m.find? fun p => p.1 = k).map Prod.snd

/-! ## Game state -/

/-- The mutable fields of `class Game` that constitute core world state, plus
the explicit randomness stream and the `localStorage` slot.  Presentation
fields (`map`, `geoId`, `movementHistory`, `movementPolyline`) carry no core
state and are omitted. -/
structure GameState where
  playerLocation : Coordinates
  caches : List Cache
  cacheStates : List (String × String)
  playerPoints : ℚ
  collectedCoins : List Coin
  rng : ℕ → ℚ
  rngIdx : ℕ
  store : Option Json

/-- `gridSize = 0.0001`. -/
def gridSize : ℚ := 1 / 10000

/-- `cacheProbability = 0.1`. -/
def cacheProbability : ℚ := 1 / 10

/-- `maxCacheDistance = 5`. -/
def maxCacheDistance : ℤ := 5

/-- The default anchor `{ lat: 36.9895, lng: -122.0628 }`. -/
def defaultAnchor : Coordinates :=
  ⟨369895 / 10000, -(1220628 / 10000)⟩

/-- Consume one `Math.random()` draw. -/
def draw (st : GameState) : ℚ × GameState :=
  (st.rng st.rngIdx, { st with rngIdx := st.rngIdx + 1 })

/-- `convertToGridCoordinates`. -/
def convertToGridCoordinates (c : Coordinates) : GridCoordinates :=
  ⟨Rat.floor (c.lat / gridSize), Rat.floor (c.lng / gridSize)⟩

/-- `generateCoins` given the cell and the already-drawn coin count. -/
def generateCoins (g : GridCoordinates) (n : ℕ) : List Coin :=
  (List.range n).map fun serial => ⟨coinId g.i g.j serial, g⟩

/-- A placeholder for the result of `JSON.parse` on an unparseable momento
(the source would throw there; unreachable for reachable states). -/
def undefinedCache : Cache := ⟨"", ⟨0, 0⟩, []⟩

/-- Placeholder coin for the (unreachable) out-of-range `splice` result. -/
def undefinedCoin : Coin := ⟨"", ⟨0, 0⟩⟩

/-- Replace the first element satisfying `p` (models in-place mutation of the
object returned by `Array.prototype.find`). -/
def replaceFirst (p : α → Bool) (x : α) : List α → List α
  | [] => []
  | a :: as => if p a then x :: as else a :: replaceFirst p x as

/-- The grid cell of the window slot at offset `(dx, dy)` from the player. -/
def windowCellGrid (st : GameState) (dx dy : ℤ) : GridCoordinates :=
  convertToGridCoordinates ⟨st.playerLocation.lat + dx * gridSize,
    st.playerLocation.lng + dy * gridSize⟩

/-- The ledger key of the window slot at offset `(dx, dy)`. -/
def windowCellKey (st : GameState) (dx dy : ℤ) : String :=
  cellKey (windowCellGrid st dx dy).i (windowCellGrid st dx dy).j

/-- One iteration of the nested `dx`/`dy` loop body of `initializeCaches`. -/
def stepCell (dx dy : ℤ) (st : GameState) : GameState :=
  let g := windowCellGrid st dx dy
  let cacheId := windowCellKey st dx dy
  match mapGet st.cacheStates cacheId with
  | some momento =>
      { st with caches := st.caches ++ [(fromMomento momento).getD undefinedCache] }
  | none =>
      let (q, st) := draw st
      if q < cacheProbability then
        let (q2, st) := draw st
        let numberOfCoins := (Rat.floor (q2 * 10)).toNat + 1
        let coins := generateCoins g numberOfCoins
        let newCache : Cache := ⟨cacheId, g, coins⟩
        { st with
          caches := st.caches ++ [newCache]
          cacheStates := mapSet st.cacheStates cacheId (toMomento newCache) }
      else st

/-- Loop offsets `-maxCacheDistance .. maxCacheDistance`. -/
def cellIdxs : List ℤ := (List.range 11).map fun k => (k : ℤ) - maxCacheDistance

/-- The `(dx, dy)` pairs visited by the nested loops, in loop order. -/
def windowOffsets : List (ℤ × ℤ) :=
  cellIdxs.foldr (fun dx acc => (cellIdxs.map fun dy => (dx, dy)) ++ acc) []

/-- `initializeCaches`: clear `caches`, then walk the window in row-major
order, restoring decided cells from the ledger and rolling existence (and, on
success, generation) for undecided ones. -/
def initializeCaches (st : GameState) : GameState :=
  windowOffsets.foldl (fun s p => stepCell p.1 p.2 s) { st with caches := [] }

/-- The save payload built by `saveGame` (the `JSON.parse` of the stored
text). -/
def saveBlob (st : GameState) : Json :=
  .jobj
    [("playerLocation", .jobj [("lat", .jnum st.playerLocation.lat),
                               ("lng", .jnum st.playerLocation.lng)]),
     ("cacheStates", .jarr (st.cacheStates.map fun p => .jarr [.jstr p.1, .jstr p.2])),
     ("playerPoints", .jnum st.playerPoints),
     ("collectedCoins", .jarr (st.collectedCoins.map fun co =>
        .jobj [("id", .jstr co.id),
               ("cacheLocation", .jobj [("i", .jnum co.cacheLocation.i),
                                        ("j", .jnum co.cacheLocation.j)])]))]

/-- `saveGame` / `triggerAutoSave`: write the blob to the store. -/
def saveGame (st : GameState) : GameState :=
  { st with store := some (saveBlob st) }

/-- `collectCoin(cacheId, coinId)`.  Returns the new state and the alerts
shown.  Note the final revision has no report branch for a missing coin. -/
def collectCoin (cacheId coinId : String) (st : GameState) : GameState × List String :=
  match st.caches.find? fun c => c.id = cacheId with
  | none => (st, [s!"Cache with ID {cacheId} not found."])
  | some cache =>
    match cache.coins.findIdx? fun co => co.id = coinId with
    | none => (st, [])
    | some coinIndex =>
      let collectedCoin := (cache.coins[coinIndex]?).getD undefinedCoin
      let cache' : Cache := { cache with coins := cache.coins.eraseIdx coinIndex }
      let st' : GameState :=
        { st with
          caches := replaceFirst (fun c => c.id = cacheId) cache' st.caches
          playerPoints := st.playerPoints + 1
          collectedCoins := st.collectedCoins ++ [collectedCoin]
          cacheStates := mapSet st.cacheStates cacheId (toMomento cache') }
      (saveGame st', [s!"Collected coin {coinId}."])

/-- `depositCoins(cacheIndex)`.  Moves up to 5 inventory coins (FIFO) into
the cache at the given array index, re-tagging their `cacheLocation`. -/
def depositCoins (cacheIndex : ℕ) (st : GameState) : GameState × List String :=
  match st.caches[cacheIndex]? with
  | none => (st, [s!"Cache with index {cacheIndex} not found."])
  | some cache =>
    let coinsToDeposit := min st.collectedCoins.length 5
    let coinsBeingDeposited := st.collectedCoins.take coinsToDeposit
    let cache' : Cache :=
      { cache with coins := cache.coins ++ coinsBeingDeposited.map fun co =>
          { co with cacheLocation := cache.location } }
    let st' : GameState :=
      { st with
        caches := st.caches.set cacheIndex cache'
        collectedCoins := st.collectedCoins.drop coinsToDeposit
        cacheStates := mapSet st.cacheStates cache.id (toMomento cache') }
    let k := cacheIndex + 1
    (saveGame st', [s!"Deposited {coinsToDeposit} coins to cache #{k}."])

/-- Movement directions. -/
inductive Direction where
  | up | down | left | right
deriving DecidableEq, Repr

/-- `movePlayer(direction)`: shift one cell, recompute the window, autosave.
(The movement-history polyline is presentation-only and not modelled.) -/
def movePlayer (d : Direction) (st : GameState) : GameState :=
  let loc := st.playerLocation
  let loc' : Coordinates :=
    match d with
    | .up => { loc with lat := loc.lat + gridSize }
    | .down => { loc with lat := loc.lat - gridSize }
    | .left => { loc with lng := loc.lng - gridSize }
    | .right => { loc with lng := loc.lng + gridSize }
  saveGame (initializeCaches { st with playerLocation := loc' })

/-- A successful geolocation callback: absolute coordinates, then window
recompute and autosave. -/
def geoUpdate (lat lng : ℚ) (st : GameState) : GameState :=
  saveGame (initializeCaches { st with playerLocation := ⟨lat, lng⟩ })

/-- `resetGame`: default location, cleared ledger, fresh window, empty
inventory, zero points, save slot removed. -/
def resetGame (st : GameState) : GameState × List String :=
  let st := initializeCaches { st with playerLocation := defaultAnchor, cacheStates := [] }
  let st := { st with collectedCoins := [], playerPoints := 0, store := none }
  (st, ["Game has been reset!"])

/-! ## `loadGame` and the constructor

JS exceptions (a `TypeError` from destructuring a non-iterable ledger entry
in the validation `every`, or from the `Map` constructor) abort the
constructor; they are modelled by `Except.error ()`. -/

/-- Destructure `[key, value] = e` for a parsed JSON value: arrays yield their
first two elements, strings their first two characters (as strings), anything
else is non-iterable and throws. -/
def destructurePair : Json → Except Unit (Option Json × Option Json)
  | .jarr xs => .ok (xs[0]?, xs[1]?)
  | .jstr s => .ok ((s.data[0]?).map fun c => .jstr (String.mk [c]),
                    (s.data[1]?).map fun c => .jstr (String.mk [c]))
  | _ => .error ()

/-- The validation callback of
`gameState.cacheStates.every(([key, value]) => typeof key === "string" && typeof value === "string")`,
with `every`'s short-circuiting. -/
def entriesAllStr : List Json → Except Unit Bool
  | [] => .ok true
  | e :: rest => do
    let (k, v) ← destructurePair e
    if isStr k && isStr v then entriesAllStr rest else .ok false

/-- The whole validation conjunction of `loadGame` (lines 685–694), in JS
evaluation order with `&&` short-circuiting. -/
def validateSave (g : Json) : Except Unit Bool := do
  let pl := jget g "playerLocation"
  if truthy pl then
    if isNum (pl.bind fun v => jget v "lat") then
      if isNum (pl.bind fun v => jget v "lng") then
        match jget g "cacheStates" with
        | some (.jarr entries) => do
          let ok ← entriesAllStr entries
          if ok then
            match jget g "collectedCoins" with
            | some (.jarr _) => pure true
            | _ => pure false
          else pure false
        | _ => pure false
      else pure false
    else pure false
  else pure false

/-- One entry consumed by `new Map(entries)`: an array entry contributes its
first two elements (validation has pinned them to strings by the time this
runs); a string entry — which string destructuring lets slip through
validation — makes the `Map` constructor throw `TypeError`. -/
def entryToPair : Json → Except Unit (String × String)
  | .jarr xs =>
    match xs[0]?, xs[1]? with
    | some (Json.jstr k), some (Json.jstr v) => .ok (k, v)
    | _, _ => .error ()
  | _ => .error ()

/-- Convert the entry list left to right, propagating the first throw. -/
def entriesToPairs : List Json → Except Unit (List (String × String))
  | [] => .ok []
  | e :: rest => do
    let kv ← entryToPair e
    let tl ← entriesToPairs rest
    pure (kv :: tl)

/-- `new Map(entries)`: convert each entry in order and insert with `set`
semantics (later duplicates overwrite in place). -/
def mapFromEntries (l : List Json) : Except Unit (List (String × String)) := do
  let pairs ← entriesToPairs l
  pure (pairs.foldl (fun m kv => mapSet m kv.1 kv.2) [])

/-- Read an integer grid component back from the blob (save-produced values
are always integral, where this is exact). -/
def intOfJson : Option Json → ℤ
  | some (.jnum q) => Rat.floor q
  | _ => 0

/-- Read a rational number back from the blob. -/
def numOfJson : Option Json → ℚ
  | some (.jnum q) => q
  | _ => 0

/-- Read a string back from the blob. -/
def strOfJson : Option Json → String
  | some (.jstr s) => s
  | _ => ""

/-- Rebuild an inventory coin from its blob entry (validation only checks
that the inventory is an array, so missing fields fall back to defaults;
save-produced entries always carry both fields). -/
def coinFromJson (v : Json) : Coin :=
  { id := strOfJson (jget v "id")
    cacheLocation :=
      ⟨intOfJson ((jget v "cacheLocation").bind fun g => jget g "i"),
       intOfJson ((jget v "cacheLocation").bind fun g => jget g "j")⟩ }

/-- `loadGame`: read the blob from the store; with no blob or a gracefully
failed validation leave the state untouched, otherwise assign the four world
fields and recompute the window.  (`playerPoints || 0` keeps a nonzero saved
number and collapses everything falsy to `0`.) -/
def loadGame (st : GameState) : Except Unit GameState :=
  match st.store with
  | none => .ok st
  | some g => do
    let ok ← validateSave g
    if ok then do
      let entries := match jget g "cacheStates" with | some (.jarr es) => es | _ => []
      let cs ← mapFromEntries entries
      let pl := jget g "playerLocation"
      let lat := numOfJson (pl.bind fun v => jget v "lat")
      let lng := numOfJson (pl.bind fun v => jget v "lng")
      let pts := numOfJson (jget g "playerPoints")
      let coins := match jget g "collectedCoins" with
                   | some (.jarr xs) => xs.map coinFromJson
                   | _ => []
      let st := { st with
        playerLocation := ⟨lat, lng⟩
        cacheStates := cs
        playerPoints := pts
        collectedCoins := coins }
      .ok (initializeCaches st)
    else .ok st

/-- The field initializers of `class Game` together with the model inputs:
the stored blob and the randomness stream.  (`playerLocation` is assigned in
the constructor before any read; the default anchor stands in for the
pre-assignment value.) -/
def initState (blob : Option Json) (rng : ℕ → ℚ) : GameState :=
  { playerLocation := defaultAnchor
    caches := []
    cacheStates := []
    playerPoints := 0
    collectedCoins := []
    rng := rng
    rngIdx := 0
    store := blob }

/-- `constructor()`: `loadGame`, then the unconditional
`this.playerLocation = { lat: 36.9895, lng: -122.0628 }`, then
`initializeCaches` (map/render/controls wiring is presentation-only). -/
def gameConstructor (blob : Option Json) (rng : ℕ → ℚ) : Except Unit GameState := do
  let st ← loadGame (initState blob rng)
  let st := { st with playerLocation := defaultAnchor }
  .ok (initializeCaches st)

/-- The observable world components: player location, active window, ledger,
points and inventory (excludes the model-only randomness and the blob
store). -/
def worldOf (st : GameState) :
    Coordinates × List Cache × List (String × String) × ℚ × List Coin :=
  (st.playerLocation, st.caches, st.cacheStates, st.playerPoints, st.collectedCoins)

/-- Total coin count over the active window plus the inventory. -/
def totalCoins (st : GameState) : ℕ :=
  (st.caches.map fun c => c.coins.length).sum + st.collectedCoins.length

/-- The remainder after a serialized integer does not begin with another
digit (true at every use site in the cache grammar, where `,`, `\x7d` or `]`
follows). -/
def noDigitHead : List Char → Prop
  | [] => True
  | c :: _ => c.isDigit = false

/-! ## Concrete states used to instantiate theorems -/

/-- A one-coin cache at cell `(0, 0)`. -/
def wCache : Cache := ⟨"0:0", ⟨0, 0⟩, [⟨"0:0#0", ⟨0, 0⟩⟩]⟩

/-- A small world: one decided cache in the window, one inventory coin. -/
def wState : GameState :=
  { playerLocation := defaultAnchor
    caches := [wCache]
    cacheStates := [("0:0", toMomento wCache)]
    playerPoints := 0
    collectedCoins := [⟨"1:1#0", ⟨1, 1⟩⟩]
    rng := fun _ => 1 / 2
    rngIdx := 0
    store := none }

/-- Deposited coins are re-tagged to the receiving cell (`{...coin,
cacheLocation: cache.location}`). -/
def retag (g : GridCoordinates) (l : List Coin) : List Coin :=
  l.map fun co => { co with cacheLocation := g }

/-- The cache after a deposit from inventory `inv`: the first
`min(inv.length, 5)` coins re-tagged and appended. -/
def depositedCache (cache : Cache) (inv : List Coin) : Cache :=
  { cache with coins := cache.coins ++ retag cache.location (inv.take (min inv.length 5)) }

/-- A decided cache at the window cell directly under the default anchor. -/
def wCache2 : Cache :=
  ⟨"369895:-1220628", ⟨369895, -1220628⟩, [⟨"369895:-1220628#0", ⟨369895, -1220628⟩⟩]⟩

/-- A world whose ledger has decided exactly the player's own cell. -/
def wState2 : GameState :=
  { wState with
    caches := []
    cacheStates := [("369895:-1220628", toMomento wCache2)]
    collectedCoins := [] }

/-- A valid world saved away from the default anchor, with nonzero points. -/
def wState3 : GameState :=
  { initState none (fun _ => 1 / 2) with playerLocation := ⟨1, 2⟩, playerPoints := 7 }

/-- A blob whose decoded shape fails validation (string latitude). -/
def wBadBlob : Json :=
  .jobj [("playerLocation", .jobj [("lat", .jstr "x"), ("lng", .jnum 2)]),
         ("cacheStates", .jarr []),
         ("playerPoints", .jnum 3),
         ("collectedCoins", .jarr [])]

/-- A blob whose ledger entries are not string/string pairs: destructuring
the number `5` in the validation `every` throws a `TypeError`. -/
def wThrowBlob : Json :=
  .jobj [("playerLocation", .jobj [("lat", .jnum 1), ("lng", .jnum 2)]),
         ("cacheStates", .jarr [.jnum 5]),
         ("collectedCoins", .jarr [])]

/-- The fresh-boot world under an all-high stream: exactly the state produced
by `gameConstructor none (fun _ => 1 / 2)` (its 121 existence draws of `1/2`
all fail, leaving an empty ledger). -/
def wBoot : GameState := initializeCaches (initState none (fun _ => 1 / 2))

/-- A reload stream whose first draw generates a cache at the first
undecided window cell. -/
def rngLow : ℕ → ℚ := fun k => if k = 0 then 0 else 1 / 2

/-- A stream failing every existence draw of the first window computation
(draws 0–120 are `1/2`) and succeeding at draw 121 — the first cell of the
second recomputation. -/
def rngC3 : ℕ → ℚ := fun k => if k = 121 then 0 else 1 / 2

/-- The key of the window cell at offset `(-4, -5)` from the default anchor:
`floor(36.9891 / 0.0001) = 369891`, `floor(-122.0633 / 0.0001) = -1220633`.
After one `Move(up)` the same cell sits at offset `(-5, -5)` and is the
first cell of the recomputed window. -/
def keyC3 : String := "369891:-1220633"

/-- The worlds reachable by the game: a fresh boot (no stored save), a
reload of a previously saved reachable world, or any intent applied to a
reachable world. -/
inductive Reachable : GameState → Prop
  | boot (rng : ℕ → ℚ) (st : GameState) :
      gameConstructor none rng = .ok st → Reachable st
  | reload (w : GameState) (rng : ℕ → ℚ) (st : GameState) : Reachable w →
      gameConstructor (some (saveBlob w)) rng = .ok st → Reachable st
  | move (d : Direction) (w : GameState) : Reachable w → Reachable (movePlayer d w)
  | geo (lat lng : ℚ) (w : GameState) : Reachable w → Reachable (geoUpdate lat lng w)
  | collect (cacheId coinId : String) (w : GameState) : Reachable w →
      Reachable (collectCoin cacheId coinId w).1
  | deposit (idx : ℕ) (w : GameState) : Reachable w → Reachable (depositCoins idx w).1
  | reset (w : GameState) : Reachable w → Reachable (resetGame w).1

/-! # Theorems

## The memento codec round-trip: `fromMomento ∘ toMomento = some` -/

theorem eatLit_append (p rest : List Char) : eatLit p (p ++ rest) = some rest := by
  induction p with
  | nil => rfl
  | cons c cs ih => simp [eatLit, ih]

theorem parseStrBody_cons (c : Char) (cs : List Char) :
    parseStrBody (c :: cs)
      = if c = '"' then some ([], cs)
        else if c = '\\' then
          match cs with
          | [] => none
          | d :: ds => (parseStrBody ds).map fun p => (d :: p.1, p.2)
        else (parseStrBody cs).map fun p => (c :: p.1, p.2) := by
  rw [parseStrBody.eq_def]

theorem parseStrBody_escChars (s rest : List Char) :
    parseStrBody (escChars s ++ '"' :: rest) = some (s, rest) := by
  induction s with
  | nil => simp [escChars, parseStrBody_cons]
  | cons c cs ih =>
    by_cases h : c = '"' ∨ c = '\\'
    · have : escChars (c :: cs) = '\\' :: c :: escChars cs := by simp [escChars, h]
      rw [this, List.cons_append, List.cons_append, parseStrBody_cons]
      simp [ih]
    · push_neg at h
      have : escChars (c :: cs) = c :: escChars cs := by simp [escChars, h.1, h.2]
      rw [this, List.cons_append, parseStrBody_cons]
      simp [h.1, h.2, ih]

theorem parseStr_serStr (s : String) (rest : List Char) :
    parseStr (serStr s ++ rest) = some (s, rest) := by
  have h1 : serStr s ++ rest = '"' :: (escChars s.data ++ '"' :: rest) := by
    simp [serStr]
  rw [h1]
  have h2 : eatLit ['"'] ('"' :: (escChars s.data ++ '"' :: rest))
      = some (escChars s.data ++ '"' :: rest) :=
    eatLit_append ['"'] _
  simp [parseStr, h2, parseStrBody_escChars]

theorem digitVal_digitChar {m : ℕ} (h : m < 10) : digitVal (Nat.digitChar m) = m := by
  interval_cases m <;> rfl

theorem isDigit_digitChar {m : ℕ} (h : m < 10) : (Nat.digitChar m).isDigit = true := by
  interval_cases m <;> rfl

theorem natDigitsAux_all_digit (fuel : ℕ) :
    ∀ n, n < fuel → ∀ c ∈ natDigitsAux fuel n, c.isDigit = true := by
  induction fuel with
  | zero => omega
  | succ fuel ih =>
    intro n hn
    rw [natDigitsAux]
    by_cases h : n < 10
    · simp [h, isDigit_digitChar]
    · simp only [h, if_false]
      intro c hc
      rcases List.mem_append.1 hc with h' | h'
      · exact ih (n / 10) (by omega) c h'
      · rcases List.mem_singleton.1 h' with rfl
        exact isDigit_digitChar (Nat.mod_lt _ (by omega))

theorem natDigits_all_digit (n : ℕ) : ∀ c ∈ natDigits n, c.isDigit = true :=
  natDigitsAux_all_digit (n + 1) n (by omega)

theorem natDigits_ne_nil (n : ℕ) : natDigits n ≠ [] := by
  rw [natDigits, natDigitsAux]
  by_cases h : n < 10 <;> simp [h]

theorem foldl_natDigitsAux (fuel : ℕ) :
    ∀ n, n < fuel → ∀ acc, (natDigitsAux fuel n).foldl (fun a c => 10 * a + digitVal c) acc
      = acc * 10 ^ (natDigitsAux fuel n).length + n := by
  induction fuel with
  | zero => omega
  | succ fuel ih =>
    intro n hn acc
    rw [natDigitsAux]
    by_cases h : n < 10
    · simp [h, digitVal_digitChar h]; ring
    · have hd : n / 10 < fuel := by omega
      simp only [h, if_false, List.foldl_append, List.foldl_cons, List.foldl_nil,
        List.length_append, List.length_cons, List.length_nil]
      rw [ih (n / 10) hd acc, digitVal_digitChar (Nat.mod_lt _ (by omega))]
      have := Nat.div_add_mod n 10
      ring_nf
      omega

theorem foldl_natDigits (n : ℕ) :
    ∀ acc, (natDigits n).foldl (fun a c => 10 * a + digitVal c) acc
      = acc * 10 ^ (natDigits n).length + n :=
  foldl_natDigitsAux (n + 1) n (by omega)

theorem parseNatAux_spec (l : List Char) :
    ∀ (acc : ℕ) (rest : List Char), (∀ c ∈ l, c.isDigit = true) → noDigitHead rest →
      parseNatAux acc (l ++ rest)
        = (l.foldl (fun a c => 10 * a + digitVal c) acc, rest) := by
  induction l with
  | nil =>
    intro acc rest _ hr
    cases rest with
    | nil => rfl
    | cons c cs => simpa [parseNatAux] using fun h => absurd h (by simpa [noDigitHead] using hr)
  | cons c cs ih =>
    intro acc rest hl hr
    have hc : c.isDigit = true := hl c (by simp)
    simp [parseNatAux, hc, ih _ rest (fun d hd => hl d (by simp [hd])) hr]

theorem parseIntL_serInt (n : ℤ) (rest : List Char) (hr : noDigitHead rest) :
    parseIntL (serInt n ++ rest) = some (n, rest) := by
  obtain ⟨d, ds, hds⟩ : ∃ d ds, natDigits n.natAbs = d :: ds := by
    rcases hn : natDigits n.natAbs with _ | ⟨d, ds⟩
    · exact absurd hn (natDigits_ne_nil _)
    · exact ⟨d, ds, rfl⟩
  have hd : d.isDigit = true := natDigits_all_digit _ d (by rw [hds]; simp)
  have hdneg : ¬(d = '-') := by
    intro h; rw [h] at hd; simp [Char.isDigit] at hd
  have hfold : (natDigits n.natAbs).foldl (fun a c => 10 * a + digitVal c) 0 = n.natAbs := by
    simpa using foldl_natDigits n.natAbs 0
  have hnat : parseNatAux 0 (d :: ds ++ rest) = (n.natAbs, rest) := by
    rw [← hds, parseNatAux_spec _ 0 rest (natDigits_all_digit _) hr, hfold]
  have hnat' : parseNatAux 0 (d :: (ds ++ rest)) = (n.natAbs, rest) := by
    simpa using hnat
  by_cases h : n < 0
  · have heq : serInt n ++ rest = '-' :: (d :: ds ++ rest) := by
      simp [serInt, h, hds]
    rw [heq]
    simp [parseIntL, hd, hnat']
    rw [abs_of_neg h]; ring
  · have heq : serInt n ++ rest = d :: (ds ++ rest) := by
      simp [serInt, h, hds]
    rw [heq]
    simp [parseIntL, hdneg, hd, hnat']
    omega

theorem noDigitHead_of_head {c : Char} (l : List Char) (h : c.isDigit = false) :
    noDigitHead (c :: l) := h

theorem parseGrid_serGrid (g : GridCoordinates) (rest : List Char) :
    parseGrid (serGrid g ++ rest) = some (g, rest) := by
  have e : serGrid g ++ rest
      = "\x7b\"i\":".data ++ (serInt g.i ++ (",\"j\":".data ++ (serInt g.j ++ ('\x7d' :: rest)))) := by
    simp [serGrid, show ("\x7d".data) = ['\x7d'] from rfl]
  have h2 : noDigitHead (",\"j\":".data ++ (serInt g.j ++ ('\x7d' :: rest))) := by
    rw [show (",\"j\":".data) = ',' :: "\"j\":".data from rfl, List.cons_append]
    exact noDigitHead_of_head _ (by decide)
  have h3 : noDigitHead ('\x7d' :: rest) := noDigitHead_of_head _ (by decide)
  rw [e]
  simp only [parseGrid, eatLit_append, Option.bind_eq_bind, Option.some_bind,
    parseIntL_serInt _ _ h2, parseIntL_serInt _ _ h3]
  rw [show ('\x7d' :: rest) = "\x7d".data ++ rest from rfl, eatLit_append]
  rfl

theorem parseCoin_serCoin (co : Coin) (rest : List Char) :
    parseCoin (serCoin co ++ rest) = some (co, rest) := by
  have e : serCoin co ++ rest
      = "\x7b\"id\":".data ++ ((serStr co.id)
          ++ (",\"cacheLocation\":".data ++ (serGrid co.cacheLocation ++ ('\x7d' :: rest)))) := by
    simp [serCoin, show ("\x7d".data) = ['\x7d'] from rfl]
  rw [e]
  simp only [parseCoin, eatLit_append, Option.bind_eq_bind, Option.some_bind,
    parseStr_serStr, parseGrid_serGrid]
  rw [show ('\x7d' :: rest) = "\x7d".data ++ rest from rfl, eatLit_append]
  rfl

theorem parseCoinsAux_serCoinsInner (l : List Coin) (hne : l ≠ []) :
    ∀ (fuel : ℕ), l.length ≤ fuel → ∀ rest,
      parseCoinsAux fuel (serCoinsInner l ++ ']' :: rest) = some (l, rest) := by
  induction l with
  | nil => exact absurd rfl hne
  | cons co tl ih =>
    intro fuel hf rest
    obtain ⟨fuel, rfl⟩ : ∃ f, fuel = f + 1 := ⟨fuel - 1, by simp at hf; omega⟩
    cases tl with
    | nil =>
      simp only [serCoinsInner, List.cons_append]
      simp [parseCoinsAux, parseCoin_serCoin co (']' :: rest)]
    | cons co2 tl2 =>
      have e : serCoinsInner (co :: co2 :: tl2) ++ ']' :: rest
          = serCoin co ++ (',' :: (serCoinsInner (co2 :: tl2) ++ ']' :: rest)) := by
        simp [serCoinsInner]
      rw [e]
      simp only [parseCoinsAux, parseCoin_serCoin co _, Option.bind_eq_bind, Option.some_bind]
      rw [ih (by simp) fuel (by simp only [List.length_cons] at hf ⊢; omega) rest]
      rfl

theorem serCoin_cons (co : Coin) : ∃ s, serCoin co = '\x7b' :: s := by
  refine ⟨"\"id\":".data ++ serStr co.id ++ ",\"cacheLocation\":".data
      ++ serGrid co.cacheLocation ++ "\x7d".data, ?_⟩
  simp [serCoin, show ("\x7b\"id\":".data) = '\x7b' :: "\"id\":".data from rfl]

theorem length_serCoinsInner (l : List Coin) : l.length ≤ (serCoinsInner l).length := by
  induction l with
  | nil => simp [serCoinsInner]
  | cons co tl ih =>
    obtain ⟨s, hs⟩ := serCoin_cons co
    cases tl with
    | nil => simp [serCoinsInner, hs]
    | cons co2 tl2 =>
      simp only [serCoinsInner, hs, List.length_append, List.length_cons] at ih ⊢
      omega

theorem parseCoins_serCoins (l : List Coin) (rest : List Char) :
    parseCoins (serCoins l ++ rest) = some (l, rest) := by
  cases l with
  | nil => simp [serCoins, serCoinsInner, parseCoins]
  | cons co tl =>
    have e : serCoins (co :: tl) ++ rest
        = '[' :: (serCoinsInner (co :: tl) ++ ']' :: rest) := by
      simp [serCoins]
    rw [e]
    have hinner : ∃ s, serCoinsInner (co :: tl) = '\x7b' :: s := by
      obtain ⟨s, hs⟩ := serCoin_cons co
      cases tl with
      | nil => exact ⟨s, by simp [serCoinsInner, hs]⟩
      | cons co2 tl2 => exact ⟨s ++ ',' :: serCoinsInner (co2 :: tl2), by
          simp [serCoinsInner, hs]⟩
    obtain ⟨s, hs⟩ := hinner
    rw [hs]
    simp only [parseCoins, if_pos rfl, List.cons_append]
    rw [if_neg (by decide : ¬('\x7b' = ']'))]
    rw [← List.cons_append, ← hs]
    apply parseCoinsAux_serCoinsInner _ (by simp) _ _
    have := length_serCoinsInner (co :: tl)
    simp only [List.length_append, List.length_cons] at this ⊢
    omega

theorem parseCacheL_serCache (c : Cache) (rest : List Char) :
    parseCacheL (serCache c ++ rest) = some (c, rest) := by
  have e : serCache c ++ rest
      = "\x7b\"id\":".data ++ (serStr c.id ++ (",\"location\":".data
          ++ (serGrid c.location ++ (",\"coins\":".data
          ++ (serCoins c.coins ++ ('\x7d' :: rest)))))) := by
    simp [serCache, show ("\x7d".data) = ['\x7d'] from rfl]
  rw [e]
  simp only [parseCacheL, eatLit_append, Option.bind_eq_bind, Option.some_bind,
    parseStr_serStr, parseGrid_serGrid, parseCoins_serCoins]
  rw [show ('\x7d' :: rest) = "\x7d".data ++ rest from rfl, eatLit_append]
  rfl

/-- The memento restore is a left inverse of the memento snapshot: restoring
`JSON.stringify(cache)` gives back exactly the cache value (§4.3 of the
design: `restore(serialize(c)) == c`). -/
theorem fromMomento_toMomento (c : Cache) : fromMomento (toMomento c) = some c := by
  have : (toMomento c).data = serCache c ++ [] := by simp [toMomento]
  rw [fromMomento, this, parseCacheL_serCache]

/-! ## Ledger (`Map`) lemmas -/

theorem mapGet_cons (a b : String) (rest : List (String × String)) (k : String) :
    mapGet ((a, b) :: rest) k = if a = k then some b else mapGet rest k := by
  by_cases h : a = k <;> simp [mapGet, List.find?, h]

theorem mapGet_mapSet_self (m : List (String × String)) (k v : String) :
    mapGet (mapSet m k v) k = some v := by
  induction m with
  | nil => simp [mapSet, mapGet_cons]
  | cons p rest ih =>
    obtain ⟨a, b⟩ := p
    by_cases h : a = k
    · simp [mapSet, h, mapGet_cons]
    · simp [mapSet, h, mapGet_cons, ih]

theorem mapGet_mapSet_ne (m : List (String × String)) (k v k' : String) (h : k' ≠ k) :
    mapGet (mapSet m k v) k' = mapGet m k' := by
  induction m with
  | nil => simp [mapSet, mapGet_cons, mapGet, Ne.symm h]
  | cons p rest ih =>
    obtain ⟨a, b⟩ := p
    by_cases ha : a = k
    · subst ha
      simp [mapSet, mapGet_cons, Ne.symm h]
    · by_cases ha' : a = k'
      · simp [mapSet, ha, ha', mapGet_cons, h]
      · simp [mapSet, ha, mapGet_cons, ha', ih]

/-! ## Structural lemmas about one window-cell step and the window fold -/

theorem stepCell_preserves (dx dy : ℤ) (st : GameState) :
    (stepCell dx dy st).playerLocation = st.playerLocation ∧
    (stepCell dx dy st).rng = st.rng ∧
    (stepCell dx dy st).playerPoints = st.playerPoints ∧
    (stepCell dx dy st).collectedCoins = st.collectedCoins ∧
    (stepCell dx dy st).store = st.store := by
  rw [stepCell]
  rcases h : mapGet st.cacheStates (windowCellKey st dx dy) with _ | m
  · simp only [h]
    by_cases hq : st.rng st.rngIdx < cacheProbability <;> simp [draw, hq]
  · simp [h]

theorem stepCell_mapGet_some (dx dy : ℤ) (st : GameState) (k v : String)
    (h : mapGet st.cacheStates k = some v) :
    mapGet (stepCell dx dy st).cacheStates k = some v := by
  rw [stepCell]
  rcases hm : mapGet st.cacheStates (windowCellKey st dx dy) with _ | m
  · simp only [hm]
    by_cases hq : st.rng st.rngIdx < cacheProbability
    · have hne : k ≠ windowCellKey st dx dy := by
        intro he; rw [he, hm] at h; exact absurd h (by simp)
      simp [draw, hq, mapGet_mapSet_ne _ _ _ _ hne, h]
    · simp [draw, hq, h]
  · simp [hm, h]

theorem stepCell_caches_append (dx dy : ℤ) (st : GameState) :
    st.caches <+: (stepCell dx dy st).caches := by
  rw [stepCell]
  rcases hm : mapGet st.cacheStates (windowCellKey st dx dy) with _ | m
  · simp only [hm]
    by_cases hq : st.rng st.rngIdx < cacheProbability
    · simp only [draw, hq, if_true]
      exact List.prefix_append _ _
    · simp only [draw, hq, if_false]
      exact List.prefix_rfl
  · simp only [hm]
    exact List.prefix_append _ _

theorem foldCells_preserves (l : List (ℤ × ℤ)) (st : GameState) :
    (l.foldl (fun s p => stepCell p.1 p.2 s) st).playerLocation = st.playerLocation ∧
    (l.foldl (fun s p => stepCell p.1 p.2 s) st).rng = st.rng ∧
    (l.foldl (fun s p => stepCell p.1 p.2 s) st).playerPoints = st.playerPoints ∧
    (l.foldl (fun s p => stepCell p.1 p.2 s) st).collectedCoins = st.collectedCoins ∧
    (l.foldl (fun s p => stepCell p.1 p.2 s) st).store = st.store := by
  induction l generalizing st with
  | nil => simp
  | cons p rest ih =>
    obtain ⟨h1, h2, h3, h4, h5⟩ := stepCell_preserves p.1 p.2 st
    obtain ⟨g1, g2, g3, g4, g5⟩ := ih (stepCell p.1 p.2 st)
    exact ⟨by rw [List.foldl_cons, g1, h1], by rw [List.foldl_cons, g2, h2],
      by rw [List.foldl_cons, g3, h3], by rw [List.foldl_cons, g4, h4],
      by rw [List.foldl_cons, g5, h5]⟩

theorem foldCells_mapGet_some (l : List (ℤ × ℤ)) (st : GameState) (k v : String)
    (h : mapGet st.cacheStates k = some v) :
    mapGet ((l.foldl (fun s p => stepCell p.1 p.2 s) st)).cacheStates k = some v := by
  induction l generalizing st with
  | nil => simpa using h
  | cons p rest ih =>
    rw [List.foldl_cons]
    exact ih _ (stepCell_mapGet_some p.1 p.2 st k v h)

theorem foldCells_caches_append (l : List (ℤ × ℤ)) (st : GameState) :
    st.caches <+: (l.foldl (fun s p => stepCell p.1 p.2 s) st).caches := by
  induction l generalizing st with
  | nil => exact List.prefix_rfl
  | cons p rest ih =>
    rw [List.foldl_cons]
    exact (stepCell_caches_append p.1 p.2 st).trans (ih _)

theorem stepCell_highDraws (dx dy : ℤ) (st : GameState)
    (h : ∀ k, cacheProbability ≤ st.rng k) :
    (stepCell dx dy st).cacheStates = st.cacheStates ∧ (stepCell dx dy st).rng = st.rng := by
  rw [stepCell]
  rcases hm : mapGet st.cacheStates (windowCellKey st dx dy) with _ | m
  · have hq : ¬(st.rng st.rngIdx < cacheProbability) := not_lt.2 (h st.rngIdx)
    simp [hm, draw, hq]
  · simp [hm]

theorem foldCells_highDraws (l : List (ℤ × ℤ)) (st : GameState)
    (h : ∀ k, cacheProbability ≤ st.rng k) :
    (l.foldl (fun s p => stepCell p.1 p.2 s) st).cacheStates = st.cacheStates := by
  induction l generalizing st with
  | nil => rfl
  | cons p rest ih =>
    obtain ⟨h1, h2⟩ := stepCell_highDraws p.1 p.2 st h
    rw [List.foldl_cons, ih _ (by rw [h2]; exact h), h1]

/-- With every available draw at least `cacheProbability`, recomputing the
window generates nothing: the ledger is untouched. -/
theorem initializeCaches_highDraws (st : GameState)
    (h : ∀ k, cacheProbability ≤ st.rng k) :
    (initializeCaches st).cacheStates = st.cacheStates := by
  rw [initializeCaches]
  exact foldCells_highDraws _ _ h

theorem worldOf_store (st : GameState) (b : Option Json) :
    worldOf { st with store := b } = worldOf st := rfl

theorem windowCellGrid_store (st : GameState) (b : Option Json) (dx dy : ℤ) :
    windowCellGrid { st with store := b } dx dy = windowCellGrid st dx dy := rfl

theorem windowCellKey_store (st : GameState) (b : Option Json) (dx dy : ℤ) :
    windowCellKey { st with store := b } dx dy = windowCellKey st dx dy := rfl

theorem stepCell_store (dx dy : ℤ) (st : GameState) (b : Option Json) :
    stepCell dx dy { st with store := b } = { stepCell dx dy st with store := b } := by
  rw [stepCell, stepCell]
  simp only [windowCellGrid_store, windowCellKey_store]
  rcases hm : mapGet st.cacheStates (windowCellKey st dx dy) with _ | m
  · simp only [hm]
    by_cases hq : st.rng st.rngIdx < cacheProbability <;> simp [draw, hq]
  · simp [hm]

theorem foldCells_store (l : List (ℤ × ℤ)) (st : GameState) (b : Option Json) :
    l.foldl (fun s p => stepCell p.1 p.2 s) { st with store := b }
      = { l.foldl (fun s p => stepCell p.1 p.2 s) st with store := b } := by
  induction l generalizing st with
  | nil => rfl
  | cons p rest ih => rw [List.foldl_cons, List.foldl_cons, stepCell_store, ih]

/-- The window recompute never reads or writes the blob store. -/
theorem initializeCaches_store (st : GameState) (b : Option Json) :
    initializeCaches { st with store := b } = { initializeCaches st with store := b } := by
  rw [initializeCaches, initializeCaches]
  exact foldCells_store windowOffsets { st with caches := [] } b

/-! ## List search/update decomposition lemmas -/

theorem find?_decomp {α : Type} (p : α → Bool) (l : List α) (c : α)
    (h : l.find? p = some c) :
    p c = true ∧ ∃ pre post, l = pre ++ c :: post ∧ ∀ a ∈ pre, p a = false := by
  induction l with
  | nil => simp at h
  | cons a as ih =>
    by_cases pa : p a
    · rw [List.find?_cons_of_pos _ pa] at h
      obtain rfl : a = c := by simpa using h
      exact ⟨pa, [], as, rfl, by simp⟩
    · rw [List.find?_cons_of_neg _ (by simpa using pa)] at h
      obtain ⟨hc, pre, post, rfl, hpre⟩ := ih h
      exact ⟨hc, a :: pre, post, rfl, by
        intro x hx
        rcases List.mem_cons.1 hx with rfl | hx
        · simpa using pa
        · exact hpre x hx⟩

theorem find?_append_cons {α : Type} (p : α → Bool) (pre post : List α) (x : α)
    (hpre : ∀ a ∈ pre, p a = false) (hx : p x = true) :
    (pre ++ x :: post).find? p = some x := by
  induction pre with
  | nil => simp [List.find?_cons_of_pos _ hx]
  | cons a as ih =>
    rw [List.cons_append, List.find?_cons_of_neg _ (by simp [hpre a (by simp)])]
    exact ih fun b hb => hpre b (by simp [hb])

theorem findIdx?_go_append_cons {α : Type} (p : α → Bool) (post : List α)
    (x : α) (hx : p x = true) :
    ∀ (pre : List α), (∀ a ∈ pre, p a = false) → ∀ i,
      List.findIdx? p (pre ++ x :: post) i = some (pre.length + i) := by
  intro pre
  induction pre with
  | nil => intro _ i; simp [List.findIdx?, hx]
  | cons a as ih =>
    intro hpre i
    rw [List.cons_append, List.findIdx?]
    simp only [hpre a (by simp), cond_false]
    rw [ih (fun b hb => hpre b (by simp [hb])) (i + 1)]
    simp only [Bool.false_eq_true, if_false, List.length_cons, Option.some.injEq]
    omega

theorem findIdx?_append_cons {α : Type} (p : α → Bool) (pre post : List α) (x : α)
    (hpre : ∀ a ∈ pre, p a = false) (hx : p x = true) :
    (pre ++ x :: post).findIdx? p = some pre.length := by
  simpa using findIdx?_go_append_cons p post x hx pre hpre 0

theorem eraseIdx_append_length {α : Type} (pre post : List α) (x : α) :
    (pre ++ x :: post).eraseIdx pre.length = pre ++ post := by
  induction pre with
  | nil => simp [List.eraseIdx]
  | cons a as ih => simp [List.eraseIdx, ih]

theorem getElem?_append_length {α : Type} (pre post : List α) (x : α) :
    (pre ++ x :: post)[pre.length]? = some x := by
  induction pre with
  | nil => simp
  | cons a as ih => simpa using ih

theorem replaceFirst_append_cons {α : Type} (p : α → Bool) (y : α) (pre post : List α)
    (x : α) (hpre : ∀ a ∈ pre, p a = false) (hx : p x = true) :
    replaceFirst p y (pre ++ x :: post) = pre ++ y :: post := by
  induction pre with
  | nil => simp [replaceFirst, hx]
  | cons a as ih =>
    rw [List.cons_append, replaceFirst]
    simp [hpre a (by simp), ih fun b hb => hpre b (by simp [hb])]

theorem sum_coinLens_set (l : List Cache) (i : ℕ) (c c' : Cache)
    (h : l[i]? = some c) :
    ((l.set i c').map fun x => x.coins.length).sum + c.coins.length
      = (l.map fun x => x.coins.length).sum + c'.coins.length := by
  induction l generalizing i with
  | nil => simp at h
  | cons a as ih =>
    cases i with
    | zero =>
      obtain rfl : a = c := by simpa using h
      simp only [List.set, List.map_cons, List.sum_cons]
      omega
    | succ i =>
      have hih := ih i (by simpa using h)
      simp only [List.set, List.map_cons, List.sum_cons] at hih ⊢
      omega

theorem findIdx?_go_decomp {α : Type} (p : α → Bool) :
    ∀ (l : List α) (i j : ℕ), List.findIdx? p l i = some j →
      ∃ pre x post, l = pre ++ x :: post ∧ j = pre.length + i ∧ p x = true ∧
        ∀ a ∈ pre, p a = false := by
  intro l
  induction l with
  | nil => intro i j h; simp [List.findIdx?] at h
  | cons a as ih =>
    intro i j h
    rw [List.findIdx?] at h
    by_cases pa : p a
    · rw [if_pos pa] at h
      exact ⟨[], a, as, rfl, by simpa using h.symm, pa, by simp⟩
    · rw [if_neg pa] at h
      obtain ⟨pre, x, post, hl, hj, hx, hpre⟩ := ih (i + 1) j h
      refine ⟨a :: pre, x, post, by rw [hl]; rfl, by simp [hj]; omega, hx, ?_⟩
      intro b hb
      rcases List.mem_cons.1 hb with rfl | hb
      · simpa using pa
      · exact hpre b hb

theorem findIdx?_decomp {α : Type} (p : α → Bool) (l : List α) (j : ℕ)
    (h : l.findIdx? p = some j) :
    ∃ pre x post, l = pre ++ x :: post ∧ pre.length = j ∧ p x = true ∧
      ∀ a ∈ pre, p a = false := by
  obtain ⟨pre, x, post, hl, hj, hx, hpre⟩ := findIdx?_go_decomp p l 0 j h
  exact ⟨pre, x, post, hl, by omega, hx, hpre⟩

/-! ## Unfolding lemmas for the collect and deposit transitions -/

theorem collectCoin_found (st : GameState) (cacheId coinId : String) (cache : Cache)
    (idx : ℕ)
    (hfind : st.caches.find? (fun c => c.id = cacheId) = some cache)
    (hidx : cache.coins.findIdx? (fun co => co.id = coinId) = some idx) :
    collectCoin cacheId coinId st
      = (saveGame { st with
          caches := replaceFirst (fun c => c.id = cacheId)
            { cache with coins := cache.coins.eraseIdx idx } st.caches
          playerPoints := st.playerPoints + 1
          collectedCoins := st.collectedCoins ++ [(cache.coins[idx]?).getD undefinedCoin]
          cacheStates := mapSet st.cacheStates cacheId
            (toMomento { cache with coins := cache.coins.eraseIdx idx }) },
        [s!"Collected coin {coinId}."]) := by
  simp only [collectCoin, hfind, hidx]

theorem depositCoins_found (st : GameState) (idx : ℕ) (cache : Cache)
    (h : st.caches[idx]? = some cache) :
    depositCoins idx st
      = (saveGame { st with
          caches := st.caches.set idx (depositedCache cache st.collectedCoins)
          collectedCoins := st.collectedCoins.drop (min st.collectedCoins.length 5)
          cacheStates := mapSet st.cacheStates cache.id
            (toMomento (depositedCache cache st.collectedCoins)) },
        [s!"Deposited {min st.collectedCoins.length 5} coins to cache #{idx + 1}."]) := by
  simp only [depositCoins, h, depositedCache, retag]

/-- Claim C4 — coin conservation: in every world state, neither a `Collect`
call (any `cacheId`, `coinId`) nor a `Deposit` call (any index) changes the
total number of coins held by the window caches plus the player inventory:
coins are only moved, never created or destroyed. -/
theorem claim_C4_conservation (st : GameState) (cacheId coinId : String) (idx : ℕ) :
    totalCoins (collectCoin cacheId coinId st).1 = totalCoins st ∧
    totalCoins (depositCoins idx st).1 = totalCoins st := by
  constructor
  · rcases hfind : st.caches.find? (fun c => c.id = cacheId) with _ | cache
    · simp [collectCoin, hfind]
    · rcases hidx : cache.coins.findIdx? (fun co => co.id = coinId) with _ | i
      · simp [collectCoin, hfind, hidx]
      · rw [collectCoin_found st cacheId coinId cache i hfind hidx]
        obtain ⟨hc, preC, postC, hdecC, hpreC⟩ :=
          find?_decomp (fun c => c.id = cacheId) st.caches cache hfind
        obtain ⟨preK, x, postK, hdecK, hlen, hx, hpreK⟩ :=
          findIdx?_decomp (fun co => co.id = coinId) cache.coins i hidx
        have herase : cache.coins.eraseIdx i = preK ++ postK := by
          rw [hdecK, ← hlen, eraseIdx_append_length]
        have hrepl : replaceFirst (fun c => c.id = cacheId)
            { cache with coins := cache.coins.eraseIdx i } (preC ++ cache :: postC)
            = preC ++ { cache with coins := cache.coins.eraseIdx i } :: postC :=
          replaceFirst_append_cons _ _ _ _ _ hpreC hc
        have hlen' : (cache.coins.eraseIdx i).length + 1 = cache.coins.length := by
          rw [herase, hdecK]
          simp
          omega
        simp only [totalCoins, saveGame, hdecC, hrepl, List.map_append, List.sum_append,
          List.map_cons, List.sum_cons, List.length_append, List.length_cons, List.length_nil]
        omega
  · rcases h : st.caches[idx]? with _ | cache
    · simp [depositCoins, h]
    · rw [depositCoins_found st idx cache h]
      have hsum := sum_coinLens_set st.caches idx cache
        (depositedCache cache st.collectedCoins) h
      have hdep : (depositedCache cache st.collectedCoins).coins.length
          = cache.coins.length + min st.collectedCoins.length 5 := by
        simp [depositedCache, retag]
      simp only [totalCoins, saveGame, List.length_drop] at hsum ⊢
      omega

/-- Claim C5 — collect success: if some active cache matches `cacheId` (and
`cache` is the first such match) and its coin sequence contains a first coin
with id `coinId` (position `pre ++ coin :: post`), then collect removes
exactly that coin, appends it to the inventory, adds exactly 1 point, and
re-persists the shrunken cache into the ledger under `cacheId`. -/
theorem claim_C5_collect_success (st : GameState) (cacheId coinId : String)
    (cache : Cache) (pre post : List Coin) (coin : Coin)
    (hfind : st.caches.find? (fun c => c.id = cacheId) = some cache)
    (hcoins : cache.coins = pre ++ coin :: post)
    (hid : coin.id = coinId)
    (hpre : ∀ co ∈ pre, co.id ≠ coinId) :
    collectCoin cacheId coinId st
      = (saveGame { st with
          caches := replaceFirst (fun c => c.id = cacheId)
            { cache with coins := pre ++ post } st.caches
          playerPoints := st.playerPoints + 1
          collectedCoins := st.collectedCoins ++ [coin]
          cacheStates := mapSet st.cacheStates cacheId
            (toMomento { cache with coins := pre ++ post }) },
        [s!"Collected coin {coinId}."]) ∧
    mapGet (collectCoin cacheId coinId st).1.cacheStates cacheId
      = some (toMomento { cache with coins := pre ++ post }) := by
  have hidx : cache.coins.findIdx? (fun co => co.id = coinId) = some pre.length := by
    rw [hcoins]
    exact findIdx?_append_cons _ _ _ _ (fun a ha => by simp [hpre a ha]) (by simp [hid])
  have herase : cache.coins.eraseIdx pre.length = pre ++ post := by
    rw [hcoins, eraseIdx_append_length]
  have hget : cache.coins[pre.length]? = some coin := by
    rw [hcoins, getElem?_append_length]
  have heq := collectCoin_found st cacheId coinId cache pre.length hfind hidx
  rw [herase, hget] at heq
  refine ⟨by simpa using heq, ?_⟩
  rw [heq]
  simpa [saveGame] using mapGet_mapSet_self st.cacheStates cacheId _

/-- Witness for C5 at a concrete one-coin world. -/
theorem claim_C5_witness :
    (collectCoin "0:0" "0:0#0" wState).1.playerPoints = wState.playerPoints + 1 ∧
    (collectCoin "0:0" "0:0#0" wState).1.collectedCoins
      = wState.collectedCoins ++ [⟨"0:0#0", ⟨0, 0⟩⟩] := by
  have h := claim_C5_collect_success wState "0:0" "0:0#0" wCache [] []
    ⟨"0:0#0", ⟨0, 0⟩⟩ (by decide) (by decide) (by decide) (by decide)
  rw [h.1]
  exact ⟨rfl, rfl⟩

/-- Claim C6 — deposit postcondition: when a cache sits at `idx` in the
window, deposit moves exactly `min(5, inventory.length)` coins from the
front of the inventory (FIFO, oldest-collected first), appends them to the
cache re-tagged to its cell with their ids preserved, re-persists the cache
state to the ledger under the cache's id, and leaves the points unchanged.
(The deposit size `count` is the constant `5` in this revision.) -/
theorem claim_C6_deposit_postcondition (st : GameState) (idx : ℕ) (cache : Cache)
    (h : st.caches[idx]? = some cache) :
    (depositCoins idx st).1.collectedCoins
      = st.collectedCoins.drop (min st.collectedCoins.length 5) ∧
    (depositCoins idx st).1.caches
      = st.caches.set idx (depositedCache cache st.collectedCoins) ∧
    (depositedCache cache st.collectedCoins).coins
      = cache.coins
        ++ retag cache.location (st.collectedCoins.take (min st.collectedCoins.length 5)) ∧
    (retag cache.location (st.collectedCoins.take (min st.collectedCoins.length 5))).map Coin.id
      = (st.collectedCoins.take (min st.collectedCoins.length 5)).map Coin.id ∧
    (∀ co ∈ retag cache.location (st.collectedCoins.take (min st.collectedCoins.length 5)),
      co.cacheLocation = cache.location) ∧
    mapGet (depositCoins idx st).1.cacheStates cache.id
      = some (toMomento (depositedCache cache st.collectedCoins)) ∧
    (depositCoins idx st).1.playerPoints = st.playerPoints := by
  rw [depositCoins_found st idx cache h]
  refine ⟨rfl, rfl, rfl, ?_, ?_, ?_, rfl⟩
  · simp [retag, List.map_take, List.map_map, Function.comp_def]
  · intro co hco
    simp only [retag, List.mem_map] at hco
    obtain ⟨c0, _, rfl⟩ := hco
    rfl
  · simpa [saveGame] using mapGet_mapSet_self st.cacheStates cache.id _

/-- Witness for C6 at the concrete one-cache world. -/
theorem claim_C6_witness :
    (depositCoins 0 wState).1.collectedCoins = [] ∧
    (depositCoins 0 wState).1.playerPoints = wState.playerPoints := by
  have h := claim_C6_deposit_postcondition wState 0 wCache (by decide)
  exact ⟨by rw [h.1]; rfl, h.2.2.2.2.2.2⟩

/-- Claim C7 as stated is false on this revision: collect with an unknown
`coinId` on an existing cache leaves the state unchanged but reports
nothing — the final revision of `collectCoin` has no `else` branch, so no
`CoinNotFound` message reaches the presentation surface.  At the concrete
world `wState` (cache `"0:0"` holding only coin `"0:0#0"`), collecting coin
id `"zz"` returns the unchanged state with an empty alert list. -/
theorem claim_C7_counterexample :
    collectCoin "0:0" "zz" wState = (wState, []) := by
  rfl

/-- Claim C7 (amended) — collect failure atomicity: an unknown `cacheId`
leaves the whole world state (the entire `GameState`, blob store included)
unchanged and reports the cache-not-found alert; a known cache with an
unknown `coinId` also leaves the state unchanged but reports nothing (the
final revision dropped the coin-not-found report). -/
theorem claim_C7_collect_failure (st : GameState) (cacheId coinId : String) :
    (st.caches.find? (fun c => c.id = cacheId) = none →
      collectCoin cacheId coinId st = (st, [s!"Cache with ID {cacheId} not found."])) ∧
    (∀ cache, st.caches.find? (fun c => c.id = cacheId) = some cache →
      cache.coins.findIdx? (fun co => co.id = coinId) = none →
      collectCoin cacheId coinId st = (st, [])) := by
  constructor
  · intro h
    simp only [collectCoin, h]
  · intro cache h1 h2
    simp only [collectCoin, h1, h2]

/-- Witness for the amended C7 at concrete failing calls. -/
theorem claim_C7_witness :
    collectCoin "9:9" "x" wState = (wState, ["Cache with ID 9:9 not found."]) ∧
    collectCoin "0:0" "zz" wState = (wState, []) :=
  ⟨(claim_C7_collect_failure wState "9:9" "x").1 (by decide),
   (claim_C7_collect_failure wState "0:0" "zz").2 wCache (by decide) (by decide)⟩

/-- Claim C10 — deposit at an index with no cache: the whole state (caches,
ledger, inventory, points, and the blob store — so no save happens) is
returned unchanged; only the index-not-found alert is emitted. -/
theorem claim_C10_deposit_out_of_range (st : GameState) (idx : ℕ)
    (h : st.caches[idx]? = none) :
    depositCoins idx st = (st, [s!"Cache with index {idx} not found."]) := by
  simp only [depositCoins, h]

/-- Witness for C10: depositing to index 5 of a one-cache window. -/
theorem claim_C10_witness :
    depositCoins 5 wState = (wState, ["Cache with index 5 not found."]) :=
  claim_C10_deposit_out_of_range wState 5 (by decide)

theorem stepCell_decided (dx dy : ℤ) (s : GameState) (m : String)
    (hm : mapGet s.cacheStates (windowCellKey s dx dy) = some m) :
    stepCell dx dy s = { s with caches := s.caches ++ [(fromMomento m).getD undefinedCache] } := by
  rw [stepCell]
  simp only [hm]

theorem windowCellKey_congr (s1 s2 : GameState) (h : s1.playerLocation = s2.playerLocation)
    (dx dy : ℤ) : windowCellKey s1 dx dy = windowCellKey s2 dx dy := by
  unfold windowCellKey windowCellGrid
  rw [h]

/-- Claim C2 — ledger determinism for decided cells: if the window offset
`(dx, dy)` is visited by `initializeCaches` and its cell key is already in
the ledger, holding the memento last recorded for some cache `c`, then the
recomputed window contains exactly `c` (the coin sequence restored from the
memento) and the ledger entry is left untouched.  The conclusion holds for
every randomness stream and mentions no draw, so the coin generator (the
only consumer of randomness) is never invoked for that key. -/
theorem claim_C2_ledger_determinism (st : GameState) (dx dy : ℤ) (c : Cache)
    (hwin : (dx, dy) ∈ windowOffsets)
    (hentry : mapGet st.cacheStates (windowCellKey st dx dy) = some (toMomento c)) :
    c ∈ (initializeCaches st).caches ∧
    mapGet (initializeCaches st).cacheStates (windowCellKey st dx dy)
      = some (toMomento c) := by
  obtain ⟨pre, post, hsplit⟩ := List.append_of_mem hwin
  rw [initializeCaches, hsplit, List.foldl_append]
  simp only [List.foldl_cons]
  set st0 : GameState := { st with caches := [] } with hst0
  set mid : GameState := pre.foldl (fun s p => stepCell p.1 p.2 s) st0 with hmid
  have hloc : mid.playerLocation = st.playerLocation := (foldCells_preserves pre st0).1
  have hkey : windowCellKey mid dx dy = windowCellKey st dx dy :=
    windowCellKey_congr _ _ (by rw [hloc]) dx dy
  have hentry_mid : mapGet mid.cacheStates (windowCellKey mid dx dy) = some (toMomento c) := by
    rw [hkey]
    exact foldCells_mapGet_some pre st0 _ _ hentry
  have hstep := stepCell_decided dx dy mid _ hentry_mid
  rw [fromMomento_toMomento] at hstep
  simp only [Option.getD_some] at hstep
  constructor
  · have hprefix := foldCells_caches_append post (stepCell dx dy mid)
    apply hprefix.subset
    rw [hstep]
    simp
  · apply foldCells_mapGet_some post (stepCell dx dy mid)
    rw [← hkey]
    exact stepCell_mapGet_some dx dy mid _ _ hentry_mid

set_option maxRecDepth 4000 in
/-- Witness for C2: the restored cache of a decided cell reappears verbatim
in the recomputed window, for a concrete world and stream. -/
theorem claim_C2_witness :
    wCache2 ∈ (initializeCaches wState2).caches ∧
    mapGet (initializeCaches wState2).cacheStates (windowCellKey wState2 0 0)
      = some (toMomento wCache2) :=
  claim_C2_ledger_determinism wState2 0 0 wCache2 (by decide) (by with_unfolding_all decide)

theorem initializeCaches_playerLocation (st : GameState) :
    (initializeCaches st).playerLocation = st.playerLocation := by
  rw [initializeCaches]
  exact (foldCells_preserves _ _).1

theorem initializeCaches_playerPoints (st : GameState) :
    (initializeCaches st).playerPoints = st.playerPoints := by
  rw [initializeCaches]
  exact (foldCells_preserves _ _).2.2.1

theorem initializeCaches_collectedCoins (st : GameState) :
    (initializeCaches st).collectedCoins = st.collectedCoins := by
  rw [initializeCaches]
  exact (foldCells_preserves _ _).2.2.2.1

/-- Claim C9 — the constructor assigns the default anchor after `loadGame`
returns, so whatever blob is stored (valid or not) and whatever the stream,
a successfully constructed game starts at the default anchor, not at the
saved location. -/
theorem claim_C9_constructor_resets_location (blob : Option Json) (rng : ℕ → ℚ)
    (st' : GameState) (h : gameConstructor blob rng = .ok st') :
    st'.playerLocation = defaultAnchor := by
  rcases hload : loadGame (initState blob rng) with e | st
  · rw [gameConstructor, hload] at h
    exact absurd h (by simp [Bind.bind, Except.bind])
  · rw [gameConstructor, hload] at h
    simp only [Bind.bind, Except.bind, Except.ok.injEq] at h
    rw [← h, initializeCaches_playerLocation]

set_option maxRecDepth 10000 in
/-- Witness for C9: a valid save at `(1, 2)` with 7 points still boots at
the default anchor (while the points do load, showing the blob was read). -/
theorem claim_C9_witness :
    (gameConstructor (some (saveBlob wState3)) (fun _ => 1 / 2)).toOption.map
        (fun st => st.playerLocation) = some defaultAnchor ∧
    (gameConstructor (some (saveBlob wState3)) (fun _ => 1 / 2)).toOption.map
        (fun st => st.playerPoints) = some 7 := by
  have hpts : (gameConstructor (some (saveBlob wState3)) (fun _ => 1 / 2)).toOption.map
      (fun st => st.playerPoints) = some 7 := by
    with_unfolding_all decide
  rcases h : gameConstructor (some (saveBlob wState3)) (fun _ => 1 / 2) with e | st'
  · rw [h] at hpts
    exact absurd hpts (by simp [Except.toOption])
  · have hloc := claim_C9_constructor_resets_location _ _ _ h
    rw [h] at hpts
    refine ⟨?_, hpts⟩
    simp [Except.toOption, hloc]

/-- Claim C8 (amended) — load validation fallback, for blobs whose
validation evaluates to `false` without throwing: `loadGame` applies no part
of the blob (the state is returned untouched: player at the default anchor,
empty ledger, empty inventory, zero points at that moment), and the
constructed game is world-for-world identical to booting with no save at
all.  Blobs that make the validation expression itself throw are covered by
the counterexample instead. -/
theorem claim_C8_load_validation_fallback (g : Json) (rng : ℕ → ℚ)
    (h : validateSave g = .ok false) :
    loadGame (initState (some g) rng) = .ok (initState (some g) rng) ∧
    (initState (some g) rng).playerLocation = defaultAnchor ∧
    (initState (some g) rng).cacheStates = [] ∧
    (initState (some g) rng).collectedCoins = [] ∧
    (initState (some g) rng).playerPoints = 0 ∧
    (gameConstructor (some g) rng).map worldOf = (gameConstructor none rng).map worldOf := by
  have hload : loadGame (initState (some g) rng) = .ok (initState (some g) rng) := by
    simp [loadGame, initState, h, Bind.bind, Except.bind]
  refine ⟨hload, rfl, rfl, rfl, rfl, ?_⟩
  have h1 : gameConstructor (some g) rng
      = .ok (initializeCaches { initState (some g) rng with playerLocation := defaultAnchor }) := by
    rw [gameConstructor, hload]
    simp only [Bind.bind, Except.bind]
  have hload0 : loadGame (initState none rng) = .ok (initState none rng) := by
    simp [loadGame, initState]
  have h2 : gameConstructor none rng
      = .ok (initializeCaches { initState none rng with playerLocation := defaultAnchor }) := by
    rw [gameConstructor, hload0]
    simp only [Bind.bind, Except.bind]
  rw [h1, h2]
  have hst : ({ initState (some g) rng with playerLocation := defaultAnchor } : GameState)
      = { { initState none rng with playerLocation := defaultAnchor } with store := some g } :=
    rfl
  rw [hst, initializeCaches_store]
  simp only [Except.map, worldOf_store]

/-- Witness for the amended C8 at a concrete invalid blob (string latitude). -/
theorem claim_C8_witness :
    loadGame (initState (some wBadBlob) (fun _ => 1 / 2))
      = .ok (initState (some wBadBlob) (fun _ => 1 / 2)) ∧
    (gameConstructor (some wBadBlob) (fun _ => 1 / 2)).map worldOf
      = (gameConstructor none (fun _ => 1 / 2)).map worldOf := by
  have h := claim_C8_load_validation_fallback wBadBlob (fun _ => 1 / 2)
    (by with_unfolding_all decide)
  exact ⟨h.1, h.2.2.2.2.2⟩

/-- Claim C8 as universally stated is false: a stored blob whose ledger
entries are not string/string pairs — here `cacheStates = [5]` — does not
fall back to a fresh default world; destructuring the entry in the
validation `every` throws a `TypeError`, the constructor aborts, and no game
starts at all. -/
theorem claim_C8_counterexample :
    gameConstructor (some wThrowBlob) (fun _ => 1 / 2) = .error () := by
  with_unfolding_all rfl

/-! ## Ledger keys stay duplicate-free on every reachable world -/

theorem mapSet_keys (m : List (String × String)) (k v : String) :
    (mapSet m k v).map Prod.fst
      = if k ∈ m.map Prod.fst then m.map Prod.fst else m.map Prod.fst ++ [k] := by
  induction m with
  | nil => simp [mapSet]
  | cons p rest ih =>
    by_cases hp : p.1 = k
    · simp [mapSet, hp]
    · simp only [mapSet, hp, if_false, List.map_cons, ih]
      by_cases hk : k ∈ rest.map Prod.fst
      · simp [hk, Ne.symm hp]
      · simp [hk, Ne.symm hp]

theorem nodup_keys_mapSet (m : List (String × String)) (k v : String)
    (h : (m.map Prod.fst).Nodup) : ((mapSet m k v).map Prod.fst).Nodup := by
  rw [mapSet_keys]
  by_cases hk : k ∈ m.map Prod.fst
  · simp [hk, h]
  · rw [if_neg hk]
    refine h.append (by simp) ?_
    intro a ha hb
    simp only [List.mem_singleton] at hb
    subst hb
    exact hk ha

theorem foldl_mapSet_keys_nodup (l : List (String × String)) :
    ∀ acc : List (String × String), (acc.map Prod.fst).Nodup →
      ((l.foldl (fun m kv => mapSet m kv.1 kv.2) acc).map Prod.fst).Nodup := by
  induction l with
  | nil => intro acc h; simpa using h
  | cons p rest ih =>
    intro acc h
    rw [List.foldl_cons]
    exact ih _ (nodup_keys_mapSet acc p.1 p.2 h)

theorem stepCell_keys_nodup (dx dy : ℤ) (st : GameState)
    (h : (st.cacheStates.map Prod.fst).Nodup) :
    (((stepCell dx dy st).cacheStates).map Prod.fst).Nodup := by
  rw [stepCell]
  rcases hm : mapGet st.cacheStates (windowCellKey st dx dy) with _ | m
  · simp only [hm]
    by_cases hq : st.rng st.rngIdx < cacheProbability
    · simp only [draw, hq, if_true]
      exact nodup_keys_mapSet _ _ _ h
    · simpa [draw, hq] using h
  · simpa [hm] using h

theorem foldCells_keys_nodup (l : List (ℤ × ℤ)) :
    ∀ st : GameState, (st.cacheStates.map Prod.fst).Nodup →
      (((l.foldl (fun s p => stepCell p.1 p.2 s) st).cacheStates).map Prod.fst).Nodup := by
  induction l with
  | nil => intro st h; simpa using h
  | cons p rest ih =>
    intro st h
    rw [List.foldl_cons]
    exact ih _ (stepCell_keys_nodup p.1 p.2 st h)

theorem initializeCaches_keys_nodup (st : GameState)
    (h : (st.cacheStates.map Prod.fst).Nodup) :
    (((initializeCaches st).cacheStates).map Prod.fst).Nodup := by
  rw [initializeCaches]
  exact foldCells_keys_nodup _ _ h

theorem loadGame_keys_nodup (st st' : GameState)
    (h : (st.cacheStates.map Prod.fst).Nodup) (hrun : loadGame st = .ok st') :
    (st'.cacheStates.map Prod.fst).Nodup := by
  rcases hs : st.store with _ | g
  · simp only [loadGame, hs] at hrun
    obtain rfl : st = st' := by simpa using hrun
    exact h
  · simp only [loadGame, hs] at hrun
    rcases hv : validateSave g with e | b
    · rw [hv] at hrun
      simp [Bind.bind, Except.bind] at hrun
    · rw [hv] at hrun
      simp only [Bind.bind, Except.bind] at hrun
      cases b with
      | false =>
        obtain rfl : st = st' := by simpa using hrun
        exact h
      | true =>
        simp only [if_true] at hrun
        rcases hp : entriesToPairs (match jget g "cacheStates" with
            | some (Json.jarr es) => es | _ => ([] : List Json)) with e | pairs
        · rw [mapFromEntries, hp] at hrun
          simp [Bind.bind, Except.bind] at hrun
        · rw [mapFromEntries, hp] at hrun
          simp only [Bind.bind, Except.bind, pure, Except.pure, Except.ok.injEq] at hrun
          rw [← hrun]
          exact initializeCaches_keys_nodup _ (foldl_mapSet_keys_nodup pairs [] (by simp))

theorem gameConstructor_keys_nodup (blob : Option Json) (rng : ℕ → ℚ) (st' : GameState)
    (h : gameConstructor blob rng = .ok st') :
    (st'.cacheStates.map Prod.fst).Nodup := by
  rcases hl : loadGame (initState blob rng) with e | st
  · rw [gameConstructor, hl] at h
    simp [Bind.bind, Except.bind] at h
  · rw [gameConstructor, hl] at h
    simp only [Bind.bind, Except.bind, Except.ok.injEq] at h
    rw [← h]
    exact initializeCaches_keys_nodup _
      (loadGame_keys_nodup (initState blob rng) st (by simp [initState]) hl)

/-- On every reachable world the ledger keys are duplicate-free — the ledger
is only ever built by `Map.set` and `new Map(...)`. -/
theorem reachable_keys_nodup (w : GameState) (h : Reachable w) :
    (w.cacheStates.map Prod.fst).Nodup := by
  induction h with
  | boot rng st hc => exact gameConstructor_keys_nodup _ _ _ hc
  | reload w rng st _ hc _ => exact gameConstructor_keys_nodup _ _ _ hc
  | move d w _ ih =>
    simp only [movePlayer, saveGame]
    exact initializeCaches_keys_nodup _ ih
  | geo lat lng w _ ih =>
    simp only [geoUpdate, saveGame]
    exact initializeCaches_keys_nodup _ ih
  | collect cacheId coinId w _ ih =>
    rcases hf : w.caches.find? (fun c => c.id = cacheId) with _ | cache
    · simpa [collectCoin, hf] using ih
    · rcases hidx : cache.coins.findIdx? (fun co => co.id = coinId) with _ | i
      · simpa [collectCoin, hf, hidx] using ih
      · simp only [collectCoin, hf, hidx, saveGame]
        exact nodup_keys_mapSet _ _ _ ih
  | deposit idx w _ ih =>
    rcases hc : w.caches[idx]? with _ | cache
    · simpa [depositCoins, hc] using ih
    · simp only [depositCoins, hc, saveGame]
      exact nodup_keys_mapSet _ _ _ ih
  | reset w _ ih =>
    simp only [resetGame]
    exact initializeCaches_keys_nodup _ (by simp)

/-! ## Round-trip of the save blob -/

theorem ratFloor_intCast (n : ℤ) : Rat.floor ((n : ℚ)) = n := by
  rw [Rat.floor_def']
  simp

theorem entriesAllStr_saved (l : List (String × String)) :
    entriesAllStr (l.map fun p => Json.jarr [.jstr p.1, .jstr p.2]) = .ok true := by
  induction l with
  | nil => rfl
  | cons p rest ih =>
    simp only [List.map_cons, entriesAllStr, destructurePair]
    simpa [Bind.bind, Except.bind, isStr] using ih

theorem entriesToPairs_saved (l : List (String × String)) :
    entriesToPairs (l.map fun p => Json.jarr [.jstr p.1, .jstr p.2]) = .ok l := by
  induction l with
  | nil => rfl
  | cons p rest ih =>
    simp [entriesToPairs, entryToPair, ih, Bind.bind, Except.bind, pure, Except.pure]

theorem mapSet_append_of_fresh (acc : List (String × String)) (k v : String)
    (h : k ∉ acc.map Prod.fst) :
    mapSet acc k v = acc ++ [(k, v)] := by
  induction acc with
  | nil => rfl
  | cons p rest ih =>
    have hk : ¬(p.1 = k) := by
      intro he
      exact h (by simp [he])
    simp only [mapSet, hk, if_false, List.cons_append]
    rw [ih fun hm => h (by simp [hm])]

theorem foldl_mapSet_rebuild (l : List (String × String)) :
    ∀ acc, (l.map Prod.fst).Nodup → (∀ k ∈ l.map Prod.fst, k ∉ acc.map Prod.fst) →
      l.foldl (fun m kv => mapSet m kv.1 kv.2) acc = acc ++ l := by
  induction l with
  | nil => simp
  | cons p rest ih =>
    intro acc hnd hdisj
    rw [List.foldl_cons, mapSet_append_of_fresh acc p.1 p.2 (hdisj p.1 (by simp))]
    rw [ih (acc ++ [(p.1, p.2)]) (by simpa using hnd.of_cons) ?_]
    · simp
    · intro k hk
      have hnotacc : k ∉ acc.map Prod.fst := hdisj k (by simp [hk])
      have hne : k ≠ p.1 := by
        rw [List.map_cons, List.nodup_cons] at hnd
        intro he
        exact hnd.1 (he ▸ hk)
      simp [hnotacc, hne]

theorem coinFromJson_saved (co : Coin) :
    coinFromJson (.jobj [("id", .jstr co.id),
      ("cacheLocation", .jobj [("i", .jnum co.cacheLocation.i),
                               ("j", .jnum co.cacheLocation.j)])]) = co := by
  simp [coinFromJson, jget, strOfJson, intOfJson, List.find?, ratFloor_intCast]

theorem validateSave_saveBlob (w : GameState) : validateSave (saveBlob w) = .ok true := by
  simp [validateSave, saveBlob, jget, truthy, isNum, List.find?, entriesAllStr_saved,
    Bind.bind, Except.bind, pure, Except.pure]

theorem mapFromEntries_saveBlob (l : List (String × String))
    (h : (l.map Prod.fst).Nodup) :
    mapFromEntries (l.map fun p => Json.jarr [.jstr p.1, .jstr p.2]) = .ok l := by
  simp only [mapFromEntries, entriesToPairs_saved, Bind.bind, Except.bind]
  rw [foldl_mapSet_rebuild l [] h (by simp)]
  rfl

/-- Claim C1 (amended) — save/load round-trip: for every reachable world
`w` and a reload stream whose draws all stay at or above `cacheProbability`
(so the window recompute during load decides no new cell), loading the
saved blob in a fresh session restores the player location, the full
ledger, the points, and the inventory exactly.  Without the draw condition
the reload may add fresh ledger entries for previously undecided in-window
cells (see the counterexample). -/
theorem claim_C1_roundtrip (w : GameState) (rng2 : ℕ → ℚ)
    (hw : Reachable w)
    (hhigh : ∀ k, cacheProbability ≤ rng2 k) :
    ∃ st', loadGame (initState (some (saveBlob w)) rng2) = .ok st' ∧
      st'.playerLocation = w.playerLocation ∧
      st'.cacheStates = w.cacheStates ∧
      st'.playerPoints = w.playerPoints ∧
      st'.collectedCoins = w.collectedCoins := by
  have hnodup : (w.cacheStates.map Prod.fst).Nodup := reachable_keys_nodup w hw
  have hentries : (match jget (saveBlob w) "cacheStates" with
      | some (Json.jarr es) => es | _ => ([] : List Json))
      = w.cacheStates.map fun p => Json.jarr [.jstr p.1, .jstr p.2] := by
    simp [saveBlob, jget, List.find?]
  have hlat : numOfJson ((jget (saveBlob w) "playerLocation").bind fun v => jget v "lat")
      = w.playerLocation.lat := by
    simp [saveBlob, jget, numOfJson, List.find?]
  have hlng : numOfJson ((jget (saveBlob w) "playerLocation").bind fun v => jget v "lng")
      = w.playerLocation.lng := by
    simp [saveBlob, jget, numOfJson, List.find?]
  have hpts : numOfJson (jget (saveBlob w) "playerPoints") = w.playerPoints := by
    simp [saveBlob, jget, numOfJson, List.find?]
  have hcoins : (match jget (saveBlob w) "collectedCoins" with
      | some (Json.jarr xs) => xs.map coinFromJson | _ => ([] : List Coin))
      = w.collectedCoins := by
    simp [saveBlob, jget, List.find?, List.map_map]
    exact (List.map_congr_left fun co _ => coinFromJson_saved co).trans (List.map_id _)
  have hrun : loadGame (initState (some (saveBlob w)) rng2)
      = .ok (initializeCaches { initState (some (saveBlob w)) rng2 with
          playerLocation := w.playerLocation
          cacheStates := w.cacheStates
          playerPoints := w.playerPoints
          collectedCoins := w.collectedCoins }) := by
    simp only [loadGame, initState, validateSave_saveBlob, Bind.bind, Except.bind,
      if_true, hentries, mapFromEntries_saveBlob w.cacheStates hnodup, hlat, hlng,
      hpts, hcoins]
  refine ⟨_, hrun, ?_, ?_, ?_, ?_⟩
  · rw [initializeCaches_playerLocation]
  · exact initializeCaches_highDraws _ fun k => hhigh k
  · rw [initializeCaches_playerPoints]
  · rw [initializeCaches_collectedCoins]

set_option maxRecDepth 10000 in
/-- Claim C1 as stated is false on the code: reloading the save of the
reachable fresh-boot world `wBoot` (the output of
`gameConstructor none (fun _ => 1/2)`, whose ledger is empty because every
existence draw of `1/2` fails) under a stream whose first draw is `0` makes
`initializeCaches` decide a previously-undecided window cell, so the loaded
ledger strictly contains the saved one: `load(save(w)) ≠ w`. -/
theorem claim_C1_counterexample :
    (loadGame (initState (some (saveBlob wBoot)) rngLow)).map (fun st => st.cacheStates)
      ≠ .ok wBoot.cacheStates := by
  with_unfolding_all decide

/-- Witness for the amended C1 at the reachable fresh-boot world and an
all-high reload stream. -/
theorem claim_C1_witness :
    (loadGame (initState (some (saveBlob wBoot)) (fun _ => 1 / 2))).map
        (fun st => st.playerLocation) = .ok wBoot.playerLocation ∧
    (loadGame (initState (some (saveBlob wBoot)) (fun _ => 1 / 2))).map
        (fun st => st.cacheStates) = .ok wBoot.cacheStates ∧
    (loadGame (initState (some (saveBlob wBoot)) (fun _ => 1 / 2))).map
        (fun st => st.playerPoints) = .ok wBoot.playerPoints ∧
    (loadGame (initState (some (saveBlob wBoot)) (fun _ => 1 / 2))).map
        (fun st => st.collectedCoins) = .ok wBoot.collectedCoins := by
  have hboot : gameConstructor none (fun _ => (1 : ℚ) / 2) = .ok wBoot := by
    simp [gameConstructor, loadGame, initState, Bind.bind, Except.bind, wBoot]
  obtain ⟨st', hrun, h1, h2, h3, h4⟩ := claim_C1_roundtrip wBoot (fun _ => 1 / 2)
    (Reachable.boot _ _ hboot) (fun k => by norm_num [cacheProbability])
  rw [hrun]
  exact ⟨by simp [Except.map, h1], by simp [Except.map, h2],
    by simp [Except.map, h3], by simp [Except.map, h4]⟩

set_option maxRecDepth 20000 in
/-- Claim C3 describes the intended design (spec §4.2/§9), and the code
violates it: under the stream `rngC3` the window cell with key `keyC3`
(offset `(-4, -5)` from the default anchor) is visited by the first
`initializeCaches` and fails its existence draw (`1/2 ≥ 0.1`), receiving no
ledger entry; the claim says the check is never repeated, so the cell could
never later acquire a cache — yet after a single `Move(up)` the window
recompute re-rolls the same cell (draw 121 is `0 < 0.1`) and it acquires a
cache and a ledger entry.  Failed cells are never recorded, so their
existence check is re-rolled on every recompute. -/
theorem claim_C3_negative_decision_rerolled :
    ((-4 : ℤ), (-5 : ℤ)) ∈ windowOffsets ∧
    windowCellKey (initState none rngC3) (-4) (-5) = keyC3 ∧
    mapGet (initializeCaches (initState none rngC3)).cacheStates keyC3 = none ∧
    windowCellKey (movePlayer .up (initializeCaches (initState none rngC3))) (-5) (-5)
      = keyC3 ∧
    (mapGet (movePlayer .up (initializeCaches (initState none rngC3))).cacheStates
        keyC3).isSome = true := by
  refine ⟨?_, ?_, ?_, ?_, ?_⟩
  · decide
  · with_unfolding_all decide
  · with_unfolding_all decide
  · with_unfolding_all decide
  · with_unfolding_all decide

end Geocoin
